import Mathlib

/-!
# Verification of swayimg's event queue and viewport transform engine

Shallow embedding of `src/application.c` (event queue, poll loop) and
`src/canvas.c` (viewport transform engine).

Modelling conventions:
* C `size_t` values are `Nat`, C `ssize_t` values are `Int`.  Where the C
  code mixes the two (usual arithmetic conversions turn `ssize_t + size_t`
  into *unsigned* arithmetic modulo 2^64) the wrap-around is modelled
  explicitly; where overflow cannot affect the stated properties the
  arithmetic is kept exact and a comment says so.
* C `float` arithmetic is modelled as exact rational arithmetic (`ℚ`);
  conversions from `float` to an integer type truncate toward zero
  (`qtrunc` below), conversions to `size_t` of non-negative values floor.
* The intrusive doubly linked list used for the event queue lives in
  `list.h`, which is not part of the provided sources; it is modelled from
  the spec as a plain `List` with O(1) head removal and tail append.
-/

set_option autoImplicit false

namespace Swayimg

/-! ## Event queue (`src/application.c`)

`struct event` is a tagged union (declared in `application.h`, not among
the provided sources).  Modelled from the spec: variants `redraw` and
`resize` carry no payload, `drag` carries two signed pixel deltas,
`activate` an index, `load` an owned image handle plus an index, `action`
a reference to an action record.  The image handle and the action
reference are opaque here and are represented by a `Nat` identifier. -/

inductive Event : Type where
  | redraw : Event
  | resize : Event
  | drag (dx dy : Int) : Event
  | activate (index : Nat) : Event
  | load (image index : Nat) : Event
  | action (act : Nat) : Event
  deriving DecidableEq

def Event.isRedraw : Event → Bool
  | Event.redraw => true
  | _ => false

def Event.isDrag : Event → Bool
  | Event.drag _ _ => true
  | _ => false

/-- Queue state: the pending events in FIFO order (head = next to pop)
plus the number of `notification_raise` calls performed so far.
Modelled from the spec: `list_append` appends at the tail, the consumer
pops at the head. -/
structure QState : Type where
  queue : List Event
  notif : Nat
  deriving DecidableEq

/-- `append_event` (application.c): allocate a node, copy the event,
append it to the queue tail, then raise the notification exactly once.
The allocation-failure path (silent drop) is not modelled: allocation is
assumed to succeed. -/
def append_event (e : Event) (q : QState) : QState :=
  { queue := q.queue ++ [e], notif := q.notif + 1 }

/-- `app_on_resize` (application.c): append a `resize` event. -/
def app_on_resize (q : QState) : QState :=
  append_event Event.resize q

/-- Scan of `app_on_drag`'s `list_for_each` loop: find the first pending
`drag` node and sum the new deltas into it in place; `none` if no `drag`
node is pending. -/
def mergeDrag (dx dy : Int) : List Event → Option (List Event)
  | [] => none
  | Event.drag a b :: t => some (Event.drag (a + dx) (b + dy) :: t)
  | e :: t => (mergeDrag dx dy t).map (fun l => e :: l)

/-- `app_on_drag` (application.c): if a `drag` event is already pending,
merge by summing the deltas in place and return without appending and
without raising a notification; otherwise append a new `drag` event. -/
def app_on_drag (dx dy : Int) (q : QState) : QState :=
  match mergeDrag dx dy q.queue with
  | some l => { q with queue := l }
  | none => append_event (Event.drag dx dy) q

/-- `app_redraw` (application.c): walk the queue from the head looking
for a pending `redraw`.  If the first one found is the last entry of the
queue, return with the queue untouched; otherwise remove it and append a
fresh `redraw` at the tail (raising a notification). -/
def app_redraw (q : QState) : QState :=
  match q.queue.findIdx? (fun e => e.isRedraw) with
  | some i =>
      if i + 1 = q.queue.length then q
      else append_event Event.redraw { q with queue := q.queue.eraseIdx i }
  | none => append_event Event.redraw q

/-- `handle_event_queue` (application.c) pops the head node one at a time
until the queue is empty (assuming the loop state stays `loop_run`):
the events are dispatched in queue order.  Returns the dispatch order and
the drained queue state. -/
def drain (q : QState) : List Event × QState :=
  (q.queue, { q with queue := [] })

/-! ## Reactor / dispatch loop (`app_run`, `app_exit` in application.c)

The loop owns a list of watched descriptors with callbacks registered by
`app_watch`.  A callback may mutate arbitrary application state (payload
type `α`) and the loop state (it may call `app_exit`); it is modelled as
a function on the pair.  A poll cycle is the outcome of one `poll` call:
either a readiness flag per watched descriptor (in registration order),
a benign `EINTR` interruption, or a fatal poll failure. -/

/-- `enum loop_state` (application.c). -/
inductive LoopState : Type where
  | loop_run : LoopState
  | loop_stop : LoopState
  | loop_error : LoopState
  deriving DecidableEq

/-- `app_exit(rc)` (application.c): `ctx.state = rc ? loop_error : loop_stop`. -/
def app_exit (rc : Int) : LoopState :=
  if rc = 0 then LoopState.loop_stop else LoopState.loop_error

/-- Outcome of one `poll()` call in `app_run`'s main loop. -/
inductive Poll (α : Type) : Type where
  | ready (flags : List Bool) : Poll α
  | intr : Poll α
  | fail : Poll α

/-- The `for` loop of one poll cycle in `app_run`: walk the watched
descriptors in registration order starting at index `i`; the loop
condition re-checks `ctx.state == loop_run` before every descriptor and
stops scanning as soon as the state has left `loop_run`; a callback is
invoked only when its descriptor reported readiness (`POLLIN`).
Returns the final state and the indices of the callbacks invoked. -/
def cycleFrom {α : Type} (i : Nat) :
    List (Bool × (α × LoopState → α × LoopState)) → α × LoopState →
      (α × LoopState) × List Nat
  | [], s => (s, [])
  | (rdy, cb) :: rest, s =>
    if s.2 = LoopState.loop_run then
      if rdy then
        let r := cycleFrom (i + 1) rest (cb s)
        (r.1, i :: r.2)
      else cycleFrom (i + 1) rest s
    else (s, [])

/-- The `while (ctx.state == loop_run)` loop of `app_run`, driven by a
finite schedule of poll outcomes.  A fatal poll failure sets
`loop_error` and breaks; `EINTR` retries without dispatching; otherwise
the ready callbacks are dispatched in registration order.  (In C the
loop blocks forever if nothing ever exits; here the schedule is finite
and the state is returned as-is when it runs out.) -/
def runLoop {α : Type} (cbs : List (α × LoopState → α × LoopState)) :
    List (Poll α) → α × LoopState → α × LoopState
  | [], s => s
  | p :: rest, s =>
    if s.2 = LoopState.loop_run then
      match p with
      | Poll.fail => (s.1, LoopState.loop_error)
      | Poll.intr => runLoop cbs rest s
      | Poll.ready flags => runLoop cbs rest (cycleFrom 0 (flags.zip cbs) s).1
    else s

/-- `app_run` (application.c): set the loop state to `loop_run`, run the
main loop, and return `ctx.state != loop_error`. -/
def app_run {α : Type} (cbs : List (α × LoopState → α × LoopState))
    (polls : List (Poll α)) (a : α) : Bool × (α × LoopState) :=
  let s := runLoop cbs polls (a, LoopState.loop_run)
  (if s.2 = LoopState.loop_error then false else true, s)

/-! ## Viewport transform engine (`src/canvas.c`)

`struct rect` and `struct size` come from `types.h` (not among the
provided sources); modelled from spec §3: `x, y` are signed (`ssize_t`),
`width, height` are unsigned (`size_t`).  C `float` is modelled as exact
`ℚ`. -/

/-- `enum canvas_scale` (canvas.c). -/
inductive ScaleMode : Type where
  | fit_optimal : ScaleMode
  | fit_window : ScaleMode
  | fit_width : ScaleMode
  | fit_height : ScaleMode
  | fill_window : ScaleMode
  | real_size : ScaleMode
  deriving DecidableEq

/-- C conversion from `float` to a signed integer type: truncation
toward zero. -/
def qtrunc (q : ℚ) : Int := if 0 ≤ q then ⌊q⌋ else ⌈q⌉

/-- `struct canvas ctx` (canvas.c): current scale, image placement
rectangle (`image.x/y` signed position, `iw`/`ih` the image's *native*
size), window size, HiDPI factor, initial scale mode, anti-aliasing
flag.  The two background colors take no part in any modelled
operation and are omitted. -/
structure CanvasState : Type where
  scale : ℚ
  x : Int
  y : Int
  iw : Nat
  ih : Nat
  W : Nat
  H : Nat
  wnd_scale : Nat
  initial_scale : ScaleMode
  antialiasing : Bool

/-- The static initializer of `ctx` (all modelled fields zero;
`initial_scale` is `scale_fit_optimal = 0`). -/
def canvas0 : CanvasState :=
  ⟨0, 0, 0, 0, 0, 0, 0, 0, ScaleMode.fit_optimal, false⟩

/-- `(size_t)(ctx.scale * ctx.image.width)`: the scaled image width as
the C cast to `size_t` computes it (truncation; the scale is
non-negative in every reachable state). -/
def scaledW (st : CanvasState) : Nat := (⌊st.scale * (st.iw : ℚ)⌋).toNat

/-- `(size_t)(ctx.scale * ctx.image.height)`. -/
def scaledH (st : CanvasState) : Nat := (⌊st.scale * (st.ih : ℚ)⌋).toNat

/-- `(size_t)(img.x + img.width)`: by C's usual arithmetic conversions
the `ssize_t + size_t` sum is computed as *unsigned* 64-bit arithmetic,
so it wraps modulo 2^64. -/
def usum (x : Int) (w : Nat) : Nat := ((x + (w : Int)) % (2 ^ 64 : Int)).toNat

/-- Reinterpret a canonical `size_t` value (in `[0, 2^64)`) as an
`ssize_t` (two's complement). -/
def toSigned (n : Int) : Int := if n < 2 ^ 63 then n else n - 2 ^ 64

/-- `(ssize_t)(a - b)` for `size_t` operands: unsigned subtraction
modulo 2^64, then reinterpreted as signed on assignment to the
`ssize_t` field. -/
def usubS (a b : Nat) : Int := toSigned (((a : Int) - (b : Int)) % (2 ^ 64 : Int))

/-- One axis of `fix_viewport` (canvas.c).  All six branch conditions in
the source test the frozen snapshot `img` taken on entry, so on one axis
the net effect is: if the scaled size fits the window (branch 5/6) the
image is centered on that axis, overriding anything the edge branches
did; otherwise at most one of the two edge branches (1/3 on x, 2/4 on y)
fires, since they require `x > 0` resp. `x < 0` (signed comparisons).
The edge comparisons of `img.x + img.width` against the window size are
unsigned (`usum`), and the snap target `window - width` is an unsigned
subtraction assigned to a signed field (`usubS`). -/
def fixAxis (x : Int) (w D : Nat) : Int :=
  if w ≤ D then ((D / 2 - w / 2 : Nat) : Int)
  else if 0 < x ∧ D < usum x w then 0
  else if x < 0 ∧ usum x w < D then usubS D w
  else x

/-- `fix_viewport` (canvas.c): clamp pass applied after every mutating
operation. -/
def fix_viewport (st : CanvasState) : CanvasState :=
  { st with x := fixAxis st.x (scaledW st) st.W,
            y := fixAxis st.y (scaledH st) st.H }

/-- `set_scale` (canvas.c): derive the scale for a fit mode, re-center
the image rectangle, then clamp.  `scale_w = 1.0 / ((float)image.width /
window.width)` and likewise for the height; the centering computes
`window/2` in `size_t` first and truncates the final `float` value on
assignment to the `ssize_t` position field. -/
def set_scale (sc : ScaleMode) (st : CanvasState) : CanvasState :=
  let scale_w : ℚ := 1 / ((st.iw : ℚ) / (st.W : ℚ))
  let scale_h : ℚ := 1 / ((st.ih : ℚ) / (st.H : ℚ))
  let s : ℚ :=
    match sc with
    | ScaleMode.fit_optimal =>
        if 1 < min scale_w scale_h then 1 else min scale_w scale_h
    | ScaleMode.fit_window => min scale_w scale_h
    | ScaleMode.fit_width => scale_w
    | ScaleMode.fit_height => scale_h
    | ScaleMode.fill_window => max scale_w scale_h
    | ScaleMode.real_size => 1
  fix_viewport
    { st with scale := s,
              x := qtrunc (((st.W / 2 : Nat) : ℚ) - s * (st.iw : ℚ) / 2),
              y := qtrunc (((st.H / 2 : Nat) : ℚ) - s * (st.ih : ℚ) / 2) }

/-- The per-image minimum scale used by `zoom` when zooming out:
`max((float)MIN_SCALE / image.width, (float)MIN_SCALE / image.height)`
with `MIN_SCALE = 10` pixels. -/
def zoom_scale_min (st : CanvasState) : ℚ :=
  max (10 / (st.iw : ℚ)) (10 / (st.ih : ℚ))

/-- The scale-adjustment half of `zoom` (canvas.c): add
`step = scale / 100 * percent`; when zooming in clamp above by
`MAX_SCALE = 100.0`, when zooming out clamp below by `zoom_scale_min`. -/
def zoom_new_scale (percent : Int) (st : CanvasState) : ℚ :=
  let step : ℚ := st.scale / 100 * (percent : ℚ)
  if 0 < percent then
    if 100 < st.scale + step then 100 else st.scale + step
  else
    if st.scale + step < zoom_scale_min st then zoom_scale_min st
    else st.scale + step

/-- `zoom` (canvas.c) up to but not including the final `fix_viewport`
call: adjust the scale (see `zoom_new_scale`), then move the viewport so
that the point previously under the window center keeps its position.
`old_w`/`new_w` are the C `size_t` casts of the scaled sizes; `delta_w`,
`cntr_x` and the final positions are `ssize_t` values, modelled as exact
integers (their magnitudes stay far below 2^63 for any realistic
window), with the `float` reposition expression truncated toward zero on
assignment. -/
def zoom_raw (percent : Int) (st : CanvasState) : CanvasState :=
  let old_w := scaledW st
  let old_h := scaledH st
  let st1 : CanvasState := { st with scale := zoom_new_scale percent st }
  let new_w := scaledW st1
  let new_h := scaledH st1
  let delta_w : Int := (old_w : Int) - (new_w : Int)
  let delta_h : Int := (old_h : Int) - (new_h : Int)
  let cntr_x : Int := ((st.W / 2 : Nat) : Int) - st.x
  let cntr_y : Int := ((st.H / 2 : Nat) : Int) - st.y
  { st1 with
      x := qtrunc ((st.x : ℚ) + (cntr_x : ℚ) / (old_w : ℚ) * (delta_w : ℚ)),
      y := qtrunc ((st.y : ℚ) + (cntr_y : ℚ) / (old_h : ℚ) * (delta_h : ℚ)) }

/-- `zoom` (canvas.c), including the final clamp pass. -/
def zoom (percent : Int) (st : CanvasState) : CanvasState :=
  fix_viewport (zoom_raw percent st)

/-- `canvas_reset_window` (canvas.c): remember whether the window width
was still zero (first-ever call), store the new window geometry and
HiDPI factor, re-clamp.  (`font_set_scale` touches no canvas state.) -/
def canvas_reset_window (w h sc : Nat) (st : CanvasState) : Bool × CanvasState :=
  (decide (st.W = 0),
    fix_viewport { st with W := w, H := h, wnd_scale := sc })

/-- `canvas_reset_image` (canvas.c). -/
def canvas_reset_image (w h : Nat) (st : CanvasState) : CanvasState :=
  set_scale st.initial_scale
    { st with x := 0, y := 0, iw := w, ih := h, scale := 0 }

/-- `canvas_swap_image_size` (canvas.c): exchange the native width and
height, shifting the position by half the scaled difference (`ssize_t`
arithmetic, exact here; the `float` product is truncated). -/
def canvas_swap_image_size (st : CanvasState) : CanvasState :=
  let diff : Int := (st.iw : Int) - (st.ih : Int)
  let shift : Int := qtrunc (st.scale * (diff : ℚ) / 2)
  fix_viewport
    { st with x := st.x + shift, y := st.y - shift, iw := st.ih, ih := st.iw }

/-- `canvas_move` (canvas.c): pan by `(window_dim / 100) * percent`
(the division is unsigned integer division), then clamp; report whether
the position changed. -/
def canvas_move (horizontal : Bool) (percent : Int) (st : CanvasState) :
    Bool × CanvasState :=
  let st' := fix_viewport
    (if horizontal then { st with x := st.x + ((st.W / 100 : Nat) : Int) * percent }
     else { st with y := st.y + ((st.H / 100 : Nat) : Int) * percent })
  (decide (st'.x ≠ st.x ∨ st'.y ≠ st.y), st')

/-- `canvas_drag` (canvas.c): pan by raw pixel deltas, clamp, report
whether the position changed. -/
def canvas_drag (dx dy : Int) (st : CanvasState) : Bool × CanvasState :=
  let st' := fix_viewport { st with x := st.x + dx, y := st.y + dy }
  (decide (st'.x ≠ st.x ∨ st'.y ≠ st.y), st')

/-- `canvas_get_scale` (canvas.c). -/
def canvas_get_scale (st : CanvasState) : ℚ := st.scale

/-- `canvas_switch_aa` (canvas.c). -/
def canvas_switch_aa (st : CanvasState) : Bool × CanvasState :=
  (!st.antialiasing, { st with antialiasing := !st.antialiasing })

/-- The results, in call order, of a sequence of `canvas_reset_window`
calls. -/
def resetWindowRuns : List (Nat × Nat × Nat) → CanvasState → List Bool
  | [], _ => []
  | c :: rest, st =>
    (canvas_reset_window c.1 c.2.1 c.2.2 st).1 ::
      resetWindowRuns rest (canvas_reset_window c.1 c.2.1 c.2.2 st).2


/-- Digit-accumulation loop of a decimal parser.  An empty remainder is
accepted (the caller rules out the empty string). -/
def parseNatAux : List Char → Nat → Option Nat
  | [], acc => some acc
  | c :: t, acc =>
    if c.isDigit then parseNatAux t (acc * 10 + (c.toNat - 48)) else none

/-- Modelled from the spec: `str_to_num` (`str.h`, not among the
provided sources) parses the zoom token as a signed decimal number
(the spec describes the zoom argument as "percent: signed"); parsing
fails on an empty or non-numeric token. -/
def strToNum (s : String) : Option Int :=
  match s.data with
  | [] => none
  | '-' :: t => if t.isEmpty then none else (parseNatAux t 0).map (fun n => -(n : Int))
  | cs => (parseNatAux cs 0).map (fun n => (n : Int))

/-- `scale_names` (canvas.c): the six scale-mode tokens in index
order. -/
def scale_names : List (String × ScaleMode) :=
  [("optimal", ScaleMode.fit_optimal), ("fit", ScaleMode.fit_window),
    ("width", ScaleMode.fit_width), ("height", ScaleMode.fit_height),
    ("fill", ScaleMode.fill_window), ("real", ScaleMode.real_size)]

/-- `canvas_zoom` (canvas.c): `none` models a NULL `op` pointer.
Returns the new state together with a flag telling whether the
"Invalid zoom operation" diagnostic was printed to stderr. -/
def canvas_zoom (op : Option String) (st : CanvasState) : CanvasState × Bool :=
  match op with
  | none => (st, false)
  | some s =>
    if s = "" then (st, false)
    else
      match scale_names.find? (fun pr => pr.1 == s) with
      | some pr => (set_scale pr.2 st, false)
      | none =>
        match strToNum s with
        | some p =>
          if p ≠ 0 ∧ -1000 < p ∧ p < 1000 then (zoom p st, false)
          else (st, true)
        | none => (st, true)

/-- An op string that is neither one of the six scale-mode names nor a
numeric percent that is nonzero and strictly between -1000 and 1000
(including NULL, empty, zero and out-of-range values). -/
def invalid_zoom_op (op : Option String) : Prop :=
  match op with
  | none => True
  | some s =>
    s = "" ∨ ((∀ pr ∈ scale_names, pr.1 ≠ s) ∧
      ∀ p : Int, strToNum s = some p → p = 0 ∨ p ≤ -1000 ∨ 1000 ≤ p)

/-- The divisors `old_w`, `old_h` used by `zoom`'s reposition step are
nonzero. -/
def zoomDivOk (st : CanvasState) : Prop := scaledW st ≠ 0 ∧ scaledH st ≠ 0

/-- The image-space x-coordinate that the window's exact center
(`window.width / 2`, integer division) is mapped to: the window center's
offset from the image's left edge, divided by the scale. -/
def anchorX (st : CanvasState) : ℚ :=
  (((st.W / 2 : Nat) : ℚ) - (st.x : ℚ)) / st.scale

/-- The image-space y-coordinate mapped to the window center. -/
def anchorY (st : CanvasState) : ℚ :=
  (((st.H / 2 : Nat) : ℚ) - (st.y : ℚ)) / st.scale

/-- The spec's worked zoom example: window 800×600, image 1600×1200,
scale 0.5, image centered (position (0, 0)). -/
def exampleState : CanvasState :=
  ⟨1/2, 0, 0, 1600, 1200, 800, 600, 1, ScaleMode.fit_optimal, false⟩

/-! ### Queue lemmas -/

theorem mergeDrag_of_no_drag (dx dy a b : Int) (post : List Event) :
    ∀ pre : List Event, (∀ e ∈ pre, e.isDrag = false) →
      mergeDrag dx dy (pre ++ Event.drag a b :: post) =
        some (pre ++ Event.drag (a + dx) (b + dy) :: post)
  | [], _ => rfl
  | e :: t, h => by
    have ht : ∀ x ∈ t, x.isDrag = false := fun x hx => h x (List.mem_cons_of_mem e hx)
    have he : e.isDrag = false := h e (List.mem_cons_self e t)
    have ih := mergeDrag_of_no_drag dx dy a b post t ht
    cases e with
    | drag u v => simp [Event.isDrag] at he
    | redraw => simpa [mergeDrag] using congrArg (Option.map (fun l => Event.redraw :: l)) ih
    | resize => simpa [mergeDrag] using congrArg (Option.map (fun l => Event.resize :: l)) ih
    | activate n =>
        simpa [mergeDrag] using congrArg (Option.map (fun l => Event.activate n :: l)) ih
    | load m n => simpa [mergeDrag] using congrArg (Option.map (fun l => Event.load m n :: l)) ih
    | action n => simpa [mergeDrag] using congrArg (Option.map (fun l => Event.action n :: l)) ih

theorem findIdx_no_redraw_append (q₀ : List Event) (h : Event.redraw ∉ q₀) :
    (q₀ ++ [Event.redraw]).findIdx? (fun e => e.isRedraw) = some q₀.length := by
  induction q₀ with
  | nil => rfl
  | cons e t ih =>
      have he : e ≠ Event.redraw := fun hc => h (hc ▸ List.mem_cons_self e t)
      have he' : e.isRedraw = false := by
        cases e <;> simp [Event.isRedraw] at he ⊢
      have ht : Event.redraw ∉ t := fun hc => h (List.mem_cons_of_mem e hc)
      simp [List.findIdx?_cons, he', ih ht]

/-! ### Claims C2 and C5 -/

/-- C2: events drain in FIFO append order except for the redraw
coalescing rule.  Starting from an empty queue, appending `resize`,
`redraw`, `drag(1,1)`, `redraw` leaves a queue draining in the order
`resize, drag(1,1), redraw` (the earlier redraw was removed and a single
new redraw appended at the tail); and appending a `redraw` while a
`redraw` is already the most recent entry leaves the queue (and the
notification count) unchanged. -/
theorem app_redraw_fifo_merge (q₀ : List Event) (n : Nat) (h : Event.redraw ∉ q₀) :
    (drain (app_redraw (app_on_drag 1 1 (app_redraw (app_on_resize ⟨[], 0⟩))))).1 =
        [Event.resize, Event.drag 1 1, Event.redraw] ∧
      app_redraw ⟨q₀ ++ [Event.redraw], n⟩ = ⟨q₀ ++ [Event.redraw], n⟩ := by
  constructor
  · rfl
  · have hf := findIdx_no_redraw_append q₀ h
    simp only [app_redraw, hf, List.length_append, List.length_cons, List.length_nil]
    norm_num

theorem app_redraw_fifo_merge_witness :
    (drain (app_redraw (app_on_drag 1 1 (app_redraw (app_on_resize ⟨[], 0⟩))))).1 =
        [Event.resize, Event.drag 1 1, Event.redraw] ∧
      app_redraw ⟨[Event.resize, Event.redraw], 5⟩ = ⟨[Event.resize, Event.redraw], 5⟩ :=
  app_redraw_fifo_merge [Event.resize] 5 (by decide)

/-- C5: drag coalescing.  Appending `drag(3,4)` then `drag(-1,2)` to an
empty queue leaves exactly one drag node carrying `(2,6)` and only one
notification was raised; in general, appending a drag while a drag is
already pending sums the deltas into the existing node, raises no new
notification, and leaves every other queued event unchanged in its
original position. -/
theorem app_on_drag_merge (pre post : List Event) (n : Nat) (a b dx dy : Int)
    (h : ∀ e ∈ pre, e.isDrag = false) :
    app_on_drag (-1) 2 (app_on_drag 3 4 ⟨[], 0⟩) = ⟨[Event.drag 2 6], 1⟩ ∧
      app_on_drag dx dy ⟨pre ++ Event.drag a b :: post, n⟩ =
        ⟨pre ++ Event.drag (a + dx) (b + dy) :: post, n⟩ := by
  constructor
  · rfl
  · simp [app_on_drag, mergeDrag_of_no_drag dx dy a b post pre h]

theorem app_on_drag_merge_witness :
    app_on_drag (-1) 2 (app_on_drag 3 4 ⟨[], 0⟩) = ⟨[Event.drag 2 6], 1⟩ ∧
      app_on_drag 10 (-7) ⟨[Event.resize, Event.drag 3 4, Event.redraw], 9⟩ =
        ⟨[Event.resize, Event.drag 13 (-3), Event.redraw], 9⟩ := by
  have h := app_on_drag_merge [Event.resize] [Event.redraw] 9 3 4 10 (-7) (by decide)
  simpa using h

theorem cycleFrom_of_not_run {α : Type} (i : Nat)
    (l : List (Bool × (α × LoopState → α × LoopState))) (s : α × LoopState)
    (h : s.2 ≠ LoopState.loop_run) : cycleFrom i l s = (s, []) := by
  cases l with
  | nil => rfl
  | cons hd tl => exact match hd with | (rdy, cb) => by simp [cycleFrom, h]

theorem cycleFrom_error_cb_bound {α : Type}
    (cb : α × LoopState → α × LoopState)
    (hcb : ∀ t, (cb t).2 = LoopState.loop_error)
    (post : List (Bool × (α × LoopState → α × LoopState))) :
    ∀ (pre : List (Bool × (α × LoopState → α × LoopState)))
      (i : Nat) (s : α × LoopState),
      ∀ j ∈ (cycleFrom i (pre ++ (true, cb) :: post) s).2, j ≤ i + pre.length
  | [], i, s, j, hj => by
    by_cases hrun : s.2 = LoopState.loop_run
    · have herr : (cb s).2 ≠ LoopState.loop_run := by
        rw [hcb s]; intro hc; exact LoopState.noConfusion hc
      simp only [List.nil_append, cycleFrom, hrun, if_true, if_pos,
        cycleFrom_of_not_run (i + 1) post (cb s) herr] at hj
      simp only [List.mem_singleton] at hj
      omega
    · rw [cycleFrom_of_not_run i _ s hrun] at hj
      simp at hj
  | (rdy, c) :: t, i, s, j, hj => by
    by_cases hrun : s.2 = LoopState.loop_run
    · by_cases hr : rdy
      · simp only [List.cons_append, cycleFrom, hrun, hr, if_true] at hj
        simp only [List.mem_cons] at hj
        rcases hj with hj | hj
        · omega
        · have := cycleFrom_error_cb_bound cb hcb post t (i + 1) (c s) j hj
          simp only [List.length_cons]
          omega
      · simp only [List.cons_append, cycleFrom, hrun, hr, if_true, if_false] at hj
        have := cycleFrom_error_cb_bound cb hcb post t (i + 1) s j hj
        simp only [List.length_cons]
        omega
    · rw [cycleFrom_of_not_run i _ s hrun] at hj
      simp at hj

/-- C6: loop early-exit.  (1) Once the loop state has left `loop_run`,
a poll cycle invokes no further watched-descriptor callback.  (2) If a
ready callback's effect is to call `app_exit` with a nonzero code
(leaving the state `loop_error`), then no callback after it is invoked
in that same cycle: every invoked index stays within the prefix up to
that callback.  (3) `app_run` returns `true` exactly when the final
loop state is `loop_stop` (and hence `false` when a callback exited
with an error code), provided the loop actually terminated (final state
not `loop_run`). -/
theorem app_run_early_exit :
    (∀ (α : Type) (i : Nat) (l : List (Bool × (α × LoopState → α × LoopState)))
        (s : α × LoopState), s.2 ≠ LoopState.loop_run → cycleFrom i l s = (s, [])) ∧
      (∀ (α : Type) (cb : α × LoopState → α × LoopState),
        (∀ t, (cb t).2 = LoopState.loop_error) →
        ∀ (pre post : List (Bool × (α × LoopState → α × LoopState))) (s : α × LoopState),
          ∀ j ∈ (cycleFrom 0 (pre ++ (true, cb) :: post) s).2, j ≤ pre.length) ∧
      (∀ (α : Type) (cbs : List (α × LoopState → α × LoopState))
          (polls : List (Poll α)) (a : α),
        (app_run cbs polls a).2.2 ≠ LoopState.loop_run →
          ((app_run cbs polls a).1 = true ↔
            (app_run cbs polls a).2.2 = LoopState.loop_stop)) := by
  refine ⟨fun α i l s h => cycleFrom_of_not_run i l s h,
    fun α cb hcb pre post s j hj => by
      simpa using cycleFrom_error_cb_bound cb hcb post pre 0 s j hj,
    fun α cbs polls a h => ?_⟩
  simp only [app_run] at h ⊢
  cases hs : (runLoop cbs polls (a, LoopState.loop_run)).2 with
  | loop_run => exact absurd hs h
  | loop_stop => simp [hs]
  | loop_error => simp [hs]

theorem app_run_early_exit_witness :
    cycleFrom 7 [((true : Bool), fun t => ((t.1 + 1 : Nat), t.2))]
        ((4 : Nat), LoopState.loop_stop) = (((4 : Nat), LoopState.loop_stop), []) ∧
      (List.all
        (cycleFrom 0
          [((true : Bool), fun t => ((t.1 + 10 : Nat), t.2)),
            ((true : Bool), fun t => ((t.1 + 1 : Nat), LoopState.loop_error)),
            ((true : Bool), fun t => ((t.1 + 100 : Nat), t.2))]
          ((0 : Nat), LoopState.loop_run)).2 (fun j => decide (j ≤ 1)) = true) ∧
      ((app_run (α := Nat) [fun t => (t.1, app_exit 3)] [Poll.ready [true]] 0).1 = true ↔
        (app_run (α := Nat) [fun t => (t.1, app_exit 3)] [Poll.ready [true]] 0).2.2 =
          LoopState.loop_stop) := by
  refine ⟨app_run_early_exit.1 Nat 7 _ _ (by decide), ?_, ?_⟩
  · have h2 := app_run_early_exit.2.1 Nat
      (fun t => ((t.1 + 1 : Nat), LoopState.loop_error)) (fun t => rfl)
      [((true : Bool), fun t => ((t.1 + 10 : Nat), t.2))]
      [((true : Bool), fun t => ((t.1 + 100 : Nat), t.2))]
      ((0 : Nat), LoopState.loop_run)
    refine List.all_eq_true.mpr (fun j hj => ?_)
    simpa using h2 j (by simpa using hj)
  · exact app_run_early_exit.2.2 Nat [fun t => (t.1, app_exit 3)] [Poll.ready [true]] 0
      (by decide)

/-! ### Claim C7: clamping idempotence -/

theorem usum_usubS (D w : Nat) : usum (usubS D w) w = D % 2 ^ 64 := by
  unfold usum usubS toSigned
  have h64 : (2 : Int) ^ 64 = 18446744073709551616 := by norm_num
  have h63 : (2 : Int) ^ 63 = 9223372036854775808 := by norm_num
  have hn : (2 : Nat) ^ 64 = 18446744073709551616 := by norm_num
  rw [h64, h63, hn]
  split_ifs with h <;> omega

theorem fixAxis_idem (x : Int) (w D : Nat) :
    fixAxis (fixAxis x w D) w D = fixAxis x w D := by
  by_cases hwD : w ≤ D
  · have hin : fixAxis x w D = ((D / 2 - w / 2 : Nat) : Int) := by
      rw [fixAxis, if_pos hwD]
    rw [hin, fixAxis, if_pos hwD]
  · by_cases h1 : 0 < x ∧ D < usum x w
    · have hin : fixAxis x w D = 0 := by
        rw [fixAxis, if_neg hwD, if_pos h1]
      rw [hin, fixAxis, if_neg hwD,
        if_neg (by simp : ¬((0 : Int) < 0 ∧ D < usum 0 w)),
        if_neg (by simp : ¬((0 : Int) < 0 ∧ usum 0 w < D))]
    · by_cases h2 : x < 0 ∧ usum x w < D
      · have hin : fixAxis x w D = usubS D w := by
          rw [fixAxis, if_neg hwD, if_neg h1, if_pos h2]
        rw [hin, fixAxis, if_neg hwD]
        have key := usum_usubS D w
        have hA : ¬(0 < usubS D w ∧ D < usum (usubS D w) w) := by
          rintro ⟨-, hb⟩
          rw [key] at hb
          exact absurd hb (not_lt.mpr (Nat.mod_le D _))
        rw [if_neg hA]
        by_cases h4 : usubS D w < 0 ∧ usum (usubS D w) w < D
        · rw [if_pos h4]
        · rw [if_neg h4]
      · have hin : fixAxis x w D = x := by
          rw [fixAxis, if_neg hwD, if_neg h1, if_neg h2]
        rw [hin, fixAxis, if_neg hwD, if_neg h1, if_neg h2]

/-- C7: clamping idempotence.  For every viewport state — any signed
image position, any non-negative scaled size (`scaledW`/`scaledH` are
arbitrary naturals once `scale` and the native size are arbitrary), any
window size — applying the clamp pass `fix_viewport` twice yields
exactly the same state as applying it once. -/
theorem fix_viewport_idempotent (st : CanvasState) :
    fix_viewport (fix_viewport st) = fix_viewport st := by
  simp only [fix_viewport, scaledW, scaledH, fixAxis_idem]

/-! ### Claim C8: `canvas_reset_window`'s first-call flag -/

/-- C8 counterexample: the claim says the first-ever call returns `true`
and *every* later call returns `false` regardless of the arguments.
But the flag is just `window.width == 0`: after a first call that passes
width 0, the second call also returns `true`. -/
theorem canvas_reset_window_second_call_counterexample :
    (canvas_reset_window 0 5 1 canvas0).1 = true ∧
      (canvas_reset_window 800 600 1 (canvas_reset_window 0 5 1 canvas0).2).1 = true := by
  exact ⟨rfl, rfl⟩

theorem resetWindowRuns_of_ne_zero :
    ∀ (calls : List (Nat × Nat × Nat)) (st : CanvasState), st.W ≠ 0 →
      (∀ c ∈ calls, 0 < c.1) →
      resetWindowRuns calls st = List.replicate calls.length false
  | [], _, _, _ => rfl
  | c :: rest, st, hW, h => by
    have hfalse : (canvas_reset_window c.1 c.2.1 c.2.2 st).1 = false := by
      simp [canvas_reset_window, hW]
    have hW' : (canvas_reset_window c.1 c.2.1 c.2.2 st).2.W = c.1 := rfl
    have hc : 0 < c.1 := h c (List.mem_cons_self c rest)
    have ih := resetWindowRuns_of_ne_zero rest (canvas_reset_window c.1 c.2.1 c.2.2 st).2
      (by rw [hW']; omega) (fun d hd => h d (List.mem_cons_of_mem c hd))
    simp [resetWindowRuns, hfalse, ih, List.replicate_succ]

/-- C8 (amended): starting from the initial state, for every sequence of
`canvas_reset_window` calls in which every call passes a *nonzero*
width, the first call returns `true` and every later call returns
`false`.  (As stated — "regardless of the width/height arguments" — the
claim fails: a call passing width 0 re-arms the first-call flag, see the
counterexample.) -/
theorem canvas_reset_window_first_call_amended (calls : List (Nat × Nat × Nat))
    (h : ∀ c ∈ calls, 0 < c.1) :
    resetWindowRuns calls canvas0 =
      if calls = [] then []
      else true :: List.replicate (calls.length - 1) false := by
  cases calls with
  | nil => rfl
  | cons c rest =>
    have htrue : (canvas_reset_window c.1 c.2.1 c.2.2 canvas0).1 = true := rfl
    have hW' : (canvas_reset_window c.1 c.2.1 c.2.2 canvas0).2.W = c.1 := rfl
    have hc : 0 < c.1 := h c (List.mem_cons_self c rest)
    have ih := resetWindowRuns_of_ne_zero rest (canvas_reset_window c.1 c.2.1 c.2.2 canvas0).2
      (by rw [hW']; omega) (fun d hd => h d (List.mem_cons_of_mem c hd))
    simp [resetWindowRuns, htrue, ih]

theorem canvas_reset_window_first_call_amended_witness :
    resetWindowRuns [(800, 600, 1), (1024, 768, 2)] canvas0 = [true, false] := by
  have h := canvas_reset_window_first_call_amended [(800, 600, 1), (1024, 768, 2)]
    (by decide)
  simpa using h

/-! ### Claim C4: scale bounds under zoom -/

theorem zoom_scale_step (st : CanvasState) (h1 : 1 ≤ st.iw) (h2 : 1 ≤ st.ih)
    (h0 : 0 ≤ st.scale) (h100 : st.scale ≤ 100) (p : Int) :
    0 ≤ (zoom p st).scale ∧ (zoom p st).scale ≤ 100 ∧
      (p < 0 → zoom_scale_min st ≤ (zoom p st).scale) := by
  have hsc : (zoom p st).scale = zoom_new_scale p st := rfl
  have hiw : (1 : ℚ) ≤ (st.iw : ℚ) := by exact_mod_cast h1
  have hih : (1 : ℚ) ≤ (st.ih : ℚ) := by exact_mod_cast h2
  have hmpos : 0 < zoom_scale_min st := by
    have hw : (0 : ℚ) < 10 / (st.iw : ℚ) := by positivity
    exact lt_max_iff.mpr (Or.inl hw)
  have hmle : zoom_scale_min st ≤ 10 := by
    apply max_le
    · rw [div_le_iff₀ (by linarith : (0 : ℚ) < (st.iw : ℚ))]
      nlinarith
    · rw [div_le_iff₀ (by linarith : (0 : ℚ) < (st.ih : ℚ))]
      nlinarith
  rw [hsc]
  unfold zoom_new_scale
  by_cases hp : 0 < p
  · have hpq : (0 : ℚ) ≤ (p : ℚ) := by exact_mod_cast hp.le
    have hstep : 0 ≤ st.scale / 100 * (p : ℚ) := by positivity
    simp only [hp, if_true]
    split_ifs with hcl
    · exact ⟨by norm_num, le_refl _, fun hneg => absurd hp (by omega)⟩
    · exact ⟨by linarith, by linarith [not_lt.mp hcl], fun hneg => absurd hp (by omega)⟩
  · have hpq : (p : ℚ) ≤ 0 := by exact_mod_cast not_lt.mp hp
    have hstep : st.scale / 100 * (p : ℚ) ≤ 0 :=
      mul_nonpos_of_nonneg_of_nonpos (by positivity) hpq
    simp only [hp, if_false]
    split_ifs with hcl
    · exact ⟨hmpos.le, by linarith, fun _ => le_refl _⟩
    · have hge := not_lt.mp hcl
      exact ⟨by linarith, by linarith, fun _ => hge⟩

theorem zoom_foldl_scale_bounds :
    ∀ (ps : List Int) (st : CanvasState), 1 ≤ st.iw → 1 ≤ st.ih →
      0 ≤ st.scale → st.scale ≤ 100 →
      0 ≤ (ps.foldl (fun s p => zoom p s) st).scale ∧
        (ps.foldl (fun s p => zoom p s) st).scale ≤ 100
  | [], _, _, _, h0, h100 => ⟨h0, h100⟩
  | p :: ps, st, h1, h2, h0, h100 => by
    have hstep := zoom_scale_step st h1 h2 h0 h100 p
    have hiw : (zoom p st).iw = st.iw := rfl
    have hih : (zoom p st).ih = st.ih := rfl
    have ih := zoom_foldl_scale_bounds ps (zoom p st) (by rw [hiw]; exact h1)
      (by rw [hih]; exact h2) hstep.1 hstep.2.1
    simpa [List.foldl_cons] using ih

/-- C4 (amended): for any image with positive native dimensions and a
*starting scale in `[0, 100]`* (e.g. produced by previous zooms), any
sequence of zoom calls keeps the scale in `[0, 100]`, and any zoom-out
call lands at or above the minimum-pixel floor
`max(MIN_SCALE/width, MIN_SCALE/height)`.  As stated the claim also
covers starting scales produced by `set_scale`, which can exceed 100.0
and remain above 100.0 after zooming out (only the lower clamp runs on
zoom-out) — see the counterexample. -/
theorem zoom_scale_bounds_amended (st : CanvasState) (h1 : 1 ≤ st.iw)
    (h2 : 1 ≤ st.ih) (h0 : 0 ≤ st.scale) (h100 : st.scale ≤ 100) :
    (∀ p : Int, 0 ≤ (zoom p st).scale ∧ (zoom p st).scale ≤ 100 ∧
        (p < 0 → zoom_scale_min st ≤ (zoom p st).scale)) ∧
      ∀ ps : List Int, (ps.foldl (fun s p => zoom p s) st).scale ≤ 100 :=
  ⟨fun p => zoom_scale_step st h1 h2 h0 h100 p,
    fun ps => (zoom_foldl_scale_bounds ps st h1 h2 h0 h100).2⟩

theorem zoom_scale_bounds_amended_witness :
    (0 : ℚ) ≤ (zoom (-7) (⟨1, 0, 0, 100, 100, 50, 50, 1,
        ScaleMode.fit_optimal, false⟩ : CanvasState)).scale ∧
      (zoom (-7) (⟨1, 0, 0, 100, 100, 50, 50, 1,
        ScaleMode.fit_optimal, false⟩ : CanvasState)).scale ≤ 100 ∧
      zoom_scale_min (⟨1, 0, 0, 100, 100, 50, 50, 1,
        ScaleMode.fit_optimal, false⟩ : CanvasState) ≤
        (zoom (-7) (⟨1, 0, 0, 100, 100, 50, 50, 1,
          ScaleMode.fit_optimal, false⟩ : CanvasState)).scale ∧
      (([(-7 : Int), 40]).foldl (fun s p => zoom p s)
        (⟨1, 0, 0, 100, 100, 50, 50, 1,
          ScaleMode.fit_optimal, false⟩ : CanvasState)).scale ≤ 100 := by
  have h := zoom_scale_bounds_amended
    (⟨1, 0, 0, 100, 100, 50, 50, 1, ScaleMode.fit_optimal, false⟩ : CanvasState)
    (by norm_num) (by norm_num) (by norm_num) (by norm_num)
  exact ⟨(h.1 (-7)).1, (h.1 (-7)).2.1, (h.1 (-7)).2.2 (by norm_num),
    h.2 [(-7 : Int), 40]⟩

/-- C4 counterexample: starting from a `set_scale`-produced scale
(window 10000×10000, image 1×1, mode `fit` gives scale 10000), a single
zoom-out call `zoom(-1)` leaves the scale at 9900 — far above the
claimed bound of 100.0 (zooming out only clamps from below). -/
theorem zoom_scale_exceeds_max_counterexample :
    canvas_get_scale (zoom (-1) (set_scale ScaleMode.fit_window
        (canvas_reset_image 1 1 (canvas_reset_window 10000 10000 1 canvas0).2))) =
      9900 ∧
    (100 : ℚ) < canvas_get_scale (zoom (-1) (set_scale ScaleMode.fit_window
        (canvas_reset_image 1 1 (canvas_reset_window 10000 10000 1 canvas0).2))) := by
  have h3 : (set_scale ScaleMode.fit_window
      (canvas_reset_image 1 1 (canvas_reset_window 10000 10000 1 canvas0).2)).scale =
        10000 := by
    norm_num [set_scale, canvas_reset_image, canvas_reset_window, fix_viewport, canvas0]
  have h4 : canvas_get_scale (zoom (-1) (set_scale ScaleMode.fit_window
      (canvas_reset_image 1 1 (canvas_reset_window 10000 10000 1 canvas0).2))) =
        9900 := by
    have hiw : (set_scale ScaleMode.fit_window
        (canvas_reset_image 1 1 (canvas_reset_window 10000 10000 1 canvas0).2)).iw = 1 :=
      rfl
    have hih : (set_scale ScaleMode.fit_window
        (canvas_reset_image 1 1 (canvas_reset_window 10000 10000 1 canvas0).2)).ih = 1 :=
      rfl
    have hsc : canvas_get_scale (zoom (-1) (set_scale ScaleMode.fit_window
        (canvas_reset_image 1 1 (canvas_reset_window 10000 10000 1 canvas0).2))) =
          zoom_new_scale (-1) (set_scale ScaleMode.fit_window
            (canvas_reset_image 1 1 (canvas_reset_window 10000 10000 1 canvas0).2)) :=
      rfl
    rw [hsc]
    norm_num [zoom_new_scale, zoom_scale_min, h3, hiw, hih]
  exact ⟨h4, by rw [h4]; norm_num⟩

/-! ### Claim C9: invalid zoom tokens are never fatal -/

/-- C9: for every op string that is neither one of the six scale-mode
names nor a numeric percent that is nonzero and strictly inside
(-1000, 1000) — including NULL, empty, zero and out-of-range values —
`canvas_zoom` leaves the whole canvas state (scale and image rectangle)
exactly unchanged, printing the diagnostic exactly when the op was
neither NULL nor empty. -/
theorem canvas_zoom_invalid_noop (op : Option String) (st : CanvasState)
    (h : invalid_zoom_op op) :
    canvas_zoom op st =
      (st, if op = none ∨ op = some "" then false else true) := by
  cases op with
  | none => simp [canvas_zoom]
  | some s =>
    by_cases hs : s = ""
    · subst hs; simp [canvas_zoom]
    · have hiv : s = "" ∨ ((∀ pr ∈ scale_names, pr.1 ≠ s) ∧
          ∀ p : Int, strToNum s = some p → p = 0 ∨ p ≤ -1000 ∨ 1000 ≤ p) := h
      rcases hiv with h1 | ⟨hnames, hnum⟩
      · exact absurd h1 hs
      have hfind : scale_names.find? (fun pr => pr.1 == s) = none := by
        apply List.find?_eq_none.mpr
        intro pr hpr
        simpa using hnames pr hpr
      simp only [canvas_zoom, if_neg hs, hfind]
      cases hp : strToNum s with
      | none => simp [hs]
      | some p =>
        have hbad := hnum p hp
        have hcond : ¬(p ≠ 0 ∧ -1000 < p ∧ p < 1000) := by
          rcases hbad with h | h | h <;> · intro hc; omega
        simp [hcond, hs]

theorem canvas_zoom_invalid_noop_witness :
    invalid_zoom_op (some "0") ∧
      canvas_zoom (some "0") canvas0 = (canvas0, true) := by
  have hinv : invalid_zoom_op (some "0") := by
    refine Or.inr ⟨by decide, fun p hp => ?_⟩
    have h0 : strToNum "0" = some 0 := rfl
    rw [h0] at hp
    exact Or.inl (Option.some.inj hp).symm
  have h := canvas_zoom_invalid_noop (some "0") canvas0 hinv
  refine ⟨hinv, ?_⟩
  rw [h]
  norm_num
  exact ⟨by decide, by decide⟩

/-! ### Claim C10: zoom's reposition divisors -/

/-- C10: `zoom`'s anchor reposition divides by the truncated pre-zoom
scaled sizes `old_w = (size_t)(scale * image.width)` and `old_h`.  For
every state in which both truncations are at least 1 the divisors are
nonzero (`zoomDivOk`), so the division-by-zero branch is unreachable;
`zoom_raw` itself contains no guard, and states violating the
precondition are reachable through `set_scale`: window 500×1, image
500×1000 under the default `fit_optimal` mode yields scale 1/1000 and
`old_w = floor(0.5) = 0`. -/
theorem zoom_divisors_nonzero :
    (∀ st : CanvasState, 1 ≤ scaledW st → 1 ≤ scaledH st → zoomDivOk st) ∧
      scaledW (canvas_reset_image 500 1000
        (canvas_reset_window 500 1 1 canvas0).2) = 0 := by
  constructor
  · intro st hw hh
    exact ⟨by omega, by omega⟩
  · norm_num [scaledW, canvas_reset_image, canvas_reset_window, set_scale,
      fix_viewport, canvas0]

theorem zoom_divisors_nonzero_witness :
    1 ≤ scaledW (⟨1, 0, 0, 100, 100, 50, 50, 1,
        ScaleMode.fit_optimal, false⟩ : CanvasState) ∧
      1 ≤ scaledH (⟨1, 0, 0, 100, 100, 50, 50, 1,
        ScaleMode.fit_optimal, false⟩ : CanvasState) ∧
      zoomDivOk (⟨1, 0, 0, 100, 100, 50, 50, 1,
        ScaleMode.fit_optimal, false⟩ : CanvasState) := by
  have hw : 1 ≤ scaledW (⟨1, 0, 0, 100, 100, 50, 50, 1,
      ScaleMode.fit_optimal, false⟩ : CanvasState) := by
    norm_num [scaledW]
  have hh : 1 ≤ scaledH (⟨1, 0, 0, 100, 100, 50, 50, 1,
      ScaleMode.fit_optimal, false⟩ : CanvasState) := by
    norm_num [scaledH]
  exact ⟨hw, hh, zoom_divisors_nonzero.1 _ hw hh⟩

/-! ### Claim C3: the no-gap invariant -/

/-- C3: the no-gap invariant *fails* on a state reachable by the public
operations.  Trace: `canvas_reset_window(100,100,1)`,
`canvas_reset_image(200,100)` (fit_optimal gives scale 1/2),
`set_scale(fill_window)` (scale 1, placement x = -50), then
`canvas_drag(-500, 0)`.  The resulting scaled width is 200 > window
width 100, yet the image stays at x = -550: its right edge
(-550 + 200 = -350) sits 450 pixels left of the window's right edge —
a positive gap on an oversized axis.  The cause: `fix_viewport`'s
oversize snap tests `img.x + img.width < ctx.window.width` in unsigned
`size_t` arithmetic, so once `x + width` is negative the sum wraps to a
huge value and the snap never fires, contradicting `fix_viewport`'s own
stated purpose ("fix viewport position to minimize gap between image
and window edge") and the spec's no-gap rule. -/
theorem fix_viewport_gap_failure :
    scaledW ((canvas_drag (-500) 0 (set_scale ScaleMode.fill_window
        (canvas_reset_image 200 100 (canvas_reset_window 100 100 1 canvas0).2))).2) =
      200 ∧
    ((canvas_drag (-500) 0 (set_scale ScaleMode.fill_window
        (canvas_reset_image 200 100 (canvas_reset_window 100 100 1 canvas0).2))).2).W =
      100 ∧
    ((canvas_drag (-500) 0 (set_scale ScaleMode.fill_window
        (canvas_reset_image 200 100 (canvas_reset_window 100 100 1 canvas0).2))).2).x =
      -550 ∧
    ((canvas_drag (-500) 0 (set_scale ScaleMode.fill_window
        (canvas_reset_image 200 100 (canvas_reset_window 100 100 1 canvas0).2))).2).x +
        ((scaledW ((canvas_drag (-500) 0 (set_scale ScaleMode.fill_window
          (canvas_reset_image 200 100
            (canvas_reset_window 100 100 1 canvas0).2))).2) : Nat) : Int) <
      (((canvas_drag (-500) 0 (set_scale ScaleMode.fill_window
        (canvas_reset_image 200 100
          (canvas_reset_window 100 100 1 canvas0).2))).2).W : Int) := by
  have h1 : (canvas_reset_window 100 100 1 canvas0).2 =
      ⟨0, 50, 50, 0, 0, 100, 100, 1, ScaleMode.fit_optimal, false⟩ := by
    norm_num [canvas_reset_window, fix_viewport, fixAxis, scaledW, scaledH, canvas0]
  have h2 : canvas_reset_image 200 100
      (⟨0, 50, 50, 0, 0, 100, 100, 1, ScaleMode.fit_optimal, false⟩ : CanvasState) =
      ⟨1/2, 0, 25, 200, 100, 100, 100, 1, ScaleMode.fit_optimal, false⟩ := by
    norm_num [canvas_reset_image, set_scale, fix_viewport, fixAxis, scaledW, scaledH,
      qtrunc, min_def, max_def]
    simp
  have hceil : (⌈(-50 : ℚ)⌉ : Int) = -50 := by
    rw [show ((-50 : ℚ)) = ((-50 : Int) : ℚ) by norm_num, Int.ceil_intCast]
  have h3 : set_scale ScaleMode.fill_window
      (⟨1/2, 0, 25, 200, 100, 100, 100, 1, ScaleMode.fit_optimal, false⟩ : CanvasState) =
      ⟨1, -50, 0, 200, 100, 100, 100, 1, ScaleMode.fit_optimal, false⟩ := by
    norm_num [set_scale, fix_viewport, fixAxis, scaledW, scaledH, qtrunc, usum,
      min_def, max_def, hceil]
    simp
  have h4 : (canvas_drag (-500) 0
      (⟨1, -50, 0, 200, 100, 100, 100, 1, ScaleMode.fit_optimal, false⟩ :
        CanvasState)).2 =
      ⟨1, -550, 0, 200, 100, 100, 100, 1, ScaleMode.fit_optimal, false⟩ := by
    norm_num [canvas_drag, fix_viewport, fixAxis, scaledW, scaledH, usum]
    simp
  rw [h1, h2, h3, h4]
  refine ⟨by norm_num [scaledW]; simp, rfl, rfl, ?_⟩
  norm_num [scaledW]

/-! ### Claim C1: anchor preservation under zoom

With exact real arithmetic the reposition in `zoom` keeps the image
point under the window center fixed *exactly*; the only error sources
are the integer truncations (`old_w`, `new_w`, and the final position
assignment).  The bound below quantifies the "floating tolerance": the
anchor moves by at most
`|cntr| * (s + s') / (old_w * s * s') + 1 / s'` image pixels. -/

theorem abs_qtrunc_sub_le_one (q : ℚ) : |((qtrunc q : Int) : ℚ) - q| ≤ 1 := by
  unfold qtrunc
  split_ifs with h
  · rw [abs_le]
    constructor
    · linarith [Int.lt_floor_add_one q]
    · linarith [Int.floor_le q]
  · rw [abs_le]
    constructor
    · linarith [Int.le_ceil q]
    · linarith [Int.ceil_lt_add_one q]

theorem floor_toNat_le (q : ℚ) (hq : 0 ≤ q) :
    ((⌊q⌋.toNat : Nat) : ℚ) ≤ q ∧ q < ((⌊q⌋.toNat : Nat) : ℚ) + 1 := by
  have h0 : 0 ≤ ⌊q⌋ := Int.floor_nonneg.mpr hq
  have hcast : ((⌊q⌋.toNat : Nat) : ℚ) = ((⌊q⌋ : Int) : ℚ) := by
    exact_mod_cast congrArg (fun z : Int => (z : ℚ)) (Int.toNat_of_nonneg h0)
  rw [hcast]
  exact ⟨Int.floor_le _, Int.lt_floor_add_one _⟩

theorem zoom_anchor_est (s s' : ℚ) (iw ow nw : Nat) (x : Int) (W2 : ℚ)
    (hs : 0 < s) (hs' : 0 < s') (how : 1 ≤ ow)
    (hol : (ow : ℚ) ≤ s * (iw : ℚ)) (hou : s * (iw : ℚ) < (ow : ℚ) + 1)
    (hnl : (nw : ℚ) ≤ s' * (iw : ℚ)) (hnu : s' * (iw : ℚ) < (nw : ℚ) + 1) :
    |(W2 - ((qtrunc ((x : ℚ) + (W2 - (x : ℚ)) / (ow : ℚ) *
          (((ow : Int) - (nw : Int) : Int) : ℚ)) : Int) : ℚ)) / s' -
        (W2 - (x : ℚ)) / s| ≤
      |W2 - (x : ℚ)| * (s + s') / ((ow : ℚ) * s * s') + 1 / s' := by
  have how0 : (0 : ℚ) < (ow : ℚ) := by
    have h1 : (1 : ℚ) ≤ (ow : ℚ) := by exact_mod_cast how
    linarith
  have hcast : (((ow : Int) - (nw : Int) : Int) : ℚ) = (ow : ℚ) - (nw : ℚ) := by
    push_cast
    ring
  rw [hcast]
  set q : ℚ := (x : ℚ) + (W2 - (x : ℚ)) / (ow : ℚ) * ((ow : ℚ) - (nw : ℚ)) with hq
  set E : ℚ := ((qtrunc q : Int) : ℚ) - q with hEdef
  have hE : |E| ≤ 1 := abs_qtrunc_sub_le_one q
  have hqt : ((qtrunc q : Int) : ℚ) = q + E := by rw [hEdef]; ring
  have hid : (W2 - ((qtrunc q : Int) : ℚ)) / s' - (W2 - (x : ℚ)) / s =
      (W2 - (x : ℚ)) * ((nw : ℚ) * s - (ow : ℚ) * s') / ((ow : ℚ) * s * s') -
        E / s' := by
    rw [hqt, hq]
    field_simp
    ring
  rw [hid]
  have tri : |(W2 - (x : ℚ)) * ((nw : ℚ) * s - (ow : ℚ) * s') /
        ((ow : ℚ) * s * s') - E / s'| ≤
      |(W2 - (x : ℚ)) * ((nw : ℚ) * s - (ow : ℚ) * s') / ((ow : ℚ) * s * s')| +
        |E / s'| := by
    have habs := abs_add
      ((W2 - (x : ℚ)) * ((nw : ℚ) * s - (ow : ℚ) * s') / ((ow : ℚ) * s * s'))
      (-(E / s'))
    simpa [sub_eq_add_neg] using habs
  refine tri.trans ?_
  have hDpos : (0 : ℚ) < (ow : ℚ) * s * s' := by positivity
  have hA : |(W2 - (x : ℚ)) * ((nw : ℚ) * s - (ow : ℚ) * s') /
        ((ow : ℚ) * s * s')| =
      |W2 - (x : ℚ)| * |(nw : ℚ) * s - (ow : ℚ) * s'| / ((ow : ℚ) * s * s') := by
    rw [abs_div, abs_mul, abs_of_pos hDpos]
  have hdiff : |(nw : ℚ) * s - (ow : ℚ) * s'| ≤ s + s' := by
    have e1 : (nw : ℚ) * s - (ow : ℚ) * s' =
        s * ((nw : ℚ) - s' * (iw : ℚ)) + s' * (s * (iw : ℚ) - (ow : ℚ)) := by ring
    rw [abs_le, e1]
    constructor
    · have l1 : s * (-1 : ℚ) < s * ((nw : ℚ) - s' * (iw : ℚ)) := by
        apply mul_lt_mul_of_pos_left _ hs
        linarith
      have l2 : 0 ≤ s' * (s * (iw : ℚ) - (ow : ℚ)) :=
        mul_nonneg hs'.le (by linarith)
      linarith
    · have u1 : s * ((nw : ℚ) - s' * (iw : ℚ)) ≤ 0 :=
        mul_nonpos_of_nonneg_of_nonpos hs.le (by linarith)
      have u2 : s' * (s * (iw : ℚ) - (ow : ℚ)) < s' * 1 := by
        apply mul_lt_mul_of_pos_left _ hs'
        linarith
      linarith
  have hB : |E / s'| ≤ 1 / s' := by
    rw [abs_div, abs_of_pos hs']
    gcongr
  rw [hA]
  have hAle : |W2 - (x : ℚ)| * |(nw : ℚ) * s - (ow : ℚ) * s'| /
        ((ow : ℚ) * s * s') ≤
      |W2 - (x : ℚ)| * (s + s') / ((ow : ℚ) * s * s') := by
    gcongr
  exact add_le_add hAle hB

theorem zoom_new_scale_pos (p : Int) (st : CanvasState) (hs : 0 < st.scale)
    (hiw : 1 ≤ st.iw) (hih : 1 ≤ st.ih) : 0 < zoom_new_scale p st := by
  have hiwq : (1 : ℚ) ≤ (st.iw : ℚ) := by exact_mod_cast hiw
  have hihq : (1 : ℚ) ≤ (st.ih : ℚ) := by exact_mod_cast hih
  have hm : 0 < zoom_scale_min st := by
    have hwrat : (0 : ℚ) < 10 / (st.iw : ℚ) := div_pos (by norm_num) (by linarith)
    exact lt_max_iff.mpr (Or.inl hwrat)
  unfold zoom_new_scale
  by_cases hp : 0 < p
  · have hpq : (1 : ℚ) ≤ (p : ℚ) := by exact_mod_cast hp
    have hstep : 0 ≤ st.scale / 100 * (p : ℚ) :=
      mul_nonneg (div_nonneg hs.le (by norm_num)) (by linarith)
    simp only [hp, if_true]
    split_ifs with h
    · norm_num
    · linarith
  · simp only [hp, if_false]
    split_ifs with h
    · exact hm
    · linarith [not_lt.mp h, hm]

/-- C1: the zoom operation is anchor-preserving around the window
center.  For every viewport state with positive scale and non-degenerate
scaled image size (both truncated scaled dimensions at least 1), after
the scale change and reposition of `zoom` — before the clamp pass
(`zoom_raw`) — the image-space point previously mapped to the window's
exact center is still mapped to the window center up to the explicit
truncation tolerance `|cntr| * (s + s') / (old_w * s * s') + 1 / s'`
image pixels per axis (zero-error in exact arithmetic; see the witness
for the spec's 800×600 window, 1600×1200 image, scale 0.5, +10%
example). -/
theorem canvas_zoom_anchor_preserving (st : CanvasState) (p : Int)
    (hs : 0 < st.scale) (hw : 1 ≤ scaledW st) (hh : 1 ≤ scaledH st) :
    0 < (zoom_raw p st).scale ∧
      |anchorX (zoom_raw p st) - anchorX st| ≤
        |(((st.W / 2 : Nat) : ℚ)) - (st.x : ℚ)| *
            (st.scale + (zoom_raw p st).scale) /
          ((scaledW st : ℚ) * st.scale * (zoom_raw p st).scale) +
          1 / (zoom_raw p st).scale ∧
      |anchorY (zoom_raw p st) - anchorY st| ≤
        |(((st.H / 2 : Nat) : ℚ)) - (st.y : ℚ)| *
            (st.scale + (zoom_raw p st).scale) /
          ((scaledH st : ℚ) * st.scale * (zoom_raw p st).scale) +
          1 / (zoom_raw p st).scale := by
  have hiw : 1 ≤ st.iw := by
    rcases Nat.eq_zero_or_pos st.iw with h0 | h1
    · exfalso
      simp [scaledW, h0] at hw
    · exact h1
  have hih : 1 ≤ st.ih := by
    rcases Nat.eq_zero_or_pos st.ih with h0 | h1
    · exfalso
      simp [scaledH, h0] at hh
    · exact h1
  have hs' : 0 < zoom_new_scale p st := zoom_new_scale_pos p st hs hiw hih
  have hscale : (zoom_raw p st).scale = zoom_new_scale p st := rfl
  have hoqW := floor_toNat_le (st.scale * (st.iw : ℚ))
    (mul_nonneg hs.le (by positivity))
  have holW : ((scaledW st : Nat) : ℚ) ≤ st.scale * (st.iw : ℚ) := hoqW.1
  have houW : st.scale * (st.iw : ℚ) < ((scaledW st : Nat) : ℚ) + 1 := hoqW.2
  have hnqW := floor_toNat_le (zoom_new_scale p st * (st.iw : ℚ))
    (mul_nonneg hs'.le (by positivity))
  have hnlW : ((scaledW { st with scale := zoom_new_scale p st } : Nat) : ℚ) ≤
      zoom_new_scale p st * (st.iw : ℚ) := hnqW.1
  have hnuW : zoom_new_scale p st * (st.iw : ℚ) <
      ((scaledW { st with scale := zoom_new_scale p st } : Nat) : ℚ) + 1 := hnqW.2
  have hoqH := floor_toNat_le (st.scale * (st.ih : ℚ))
    (mul_nonneg hs.le (by positivity))
  have holH : ((scaledH st : Nat) : ℚ) ≤ st.scale * (st.ih : ℚ) := hoqH.1
  have houH : st.scale * (st.ih : ℚ) < ((scaledH st : Nat) : ℚ) + 1 := hoqH.2
  have hnqH := floor_toNat_le (zoom_new_scale p st * (st.ih : ℚ))
    (mul_nonneg hs'.le (by positivity))
  have hnlH : ((scaledH { st with scale := zoom_new_scale p st } : Nat) : ℚ) ≤
      zoom_new_scale p st * (st.ih : ℚ) := hnqH.1
  have hnuH : zoom_new_scale p st * (st.ih : ℚ) <
      ((scaledH { st with scale := zoom_new_scale p st } : Nat) : ℚ) + 1 := hnqH.2
  refine ⟨by rw [hscale]; exact hs', ?_, ?_⟩
  · have e1 : anchorX (zoom_raw p st) =
        (((st.W / 2 : Nat) : ℚ) - ((qtrunc ((st.x : ℚ) +
          ((((st.W / 2 : Nat) : Int) - st.x : Int) : ℚ) /
            ((scaledW st : Nat) : ℚ) *
          (((scaledW st : Int) -
              ((scaledW { st with scale := zoom_new_scale p st } : Nat) : Int) :
            Int) : ℚ)) : Int) : ℚ)) / zoom_new_scale p st := rfl
    have hc : ((((st.W / 2 : Nat) : Int) - st.x : Int) : ℚ) =
        (((st.W / 2 : Nat) : ℚ) - (st.x : ℚ)) := by
      rw [Int.cast_sub, Int.cast_natCast]
    have e2 : anchorX st = (((st.W / 2 : Nat) : ℚ) - (st.x : ℚ)) / st.scale := rfl
    rw [hscale, e1, hc, e2]
    exact zoom_anchor_est st.scale (zoom_new_scale p st) st.iw (scaledW st)
      (scaledW { st with scale := zoom_new_scale p st }) st.x
      (((st.W / 2 : Nat) : ℚ)) hs hs' hw holW houW hnlW hnuW
  · have e1 : anchorY (zoom_raw p st) =
        (((st.H / 2 : Nat) : ℚ) - ((qtrunc ((st.y : ℚ) +
          ((((st.H / 2 : Nat) : Int) - st.y : Int) : ℚ) /
            ((scaledH st : Nat) : ℚ) *
          (((scaledH st : Int) -
              ((scaledH { st with scale := zoom_new_scale p st } : Nat) : Int) :
            Int) : ℚ)) : Int) : ℚ)) / zoom_new_scale p st := rfl
    have hc : ((((st.H / 2 : Nat) : Int) - st.y : Int) : ℚ) =
        (((st.H / 2 : Nat) : ℚ) - (st.y : ℚ)) := by
      rw [Int.cast_sub, Int.cast_natCast]
    have e2 : anchorY st = (((st.H / 2 : Nat) : ℚ) - (st.y : ℚ)) / st.scale := rfl
    rw [hscale, e1, hc, e2]
    exact zoom_anchor_est st.scale (zoom_new_scale p st) st.ih (scaledH st)
      (scaledH { st with scale := zoom_new_scale p st }) st.y
      (((st.H / 2 : Nat) : ℚ)) hs hs' hh holH houH hnlH hnuH

theorem canvas_zoom_anchor_preserving_witness :
    ((0 : ℚ) < exampleState.scale ∧ 1 ≤ scaledW exampleState ∧
        1 ≤ scaledH exampleState) ∧
      (0 < (zoom_raw 10 exampleState).scale ∧
        |anchorX (zoom_raw 10 exampleState) - anchorX exampleState| ≤
          |(((exampleState.W / 2 : Nat) : ℚ)) - (exampleState.x : ℚ)| *
              (exampleState.scale + (zoom_raw 10 exampleState).scale) /
            ((scaledW exampleState : ℚ) * exampleState.scale *
              (zoom_raw 10 exampleState).scale) +
            1 / (zoom_raw 10 exampleState).scale ∧
        |anchorY (zoom_raw 10 exampleState) - anchorY exampleState| ≤
          |(((exampleState.H / 2 : Nat) : ℚ)) - (exampleState.y : ℚ)| *
              (exampleState.scale + (zoom_raw 10 exampleState).scale) /
            ((scaledH exampleState : ℚ) * exampleState.scale *
              (zoom_raw 10 exampleState).scale) +
            1 / (zoom_raw 10 exampleState).scale) := by
  have h1 : (0 : ℚ) < exampleState.scale := by norm_num [exampleState]
  have h2 : 1 ≤ scaledW exampleState := by
    show 1 ≤ (⌊exampleState.scale * (exampleState.iw : ℚ)⌋).toNat
    have hfl : ⌊exampleState.scale * (exampleState.iw : ℚ)⌋ = 800 := by
      norm_num [exampleState]
    omega
  have h3 : 1 ≤ scaledH exampleState := by
    show 1 ≤ (⌊exampleState.scale * (exampleState.ih : ℚ)⌋).toNat
    have hfl : ⌊exampleState.scale * (exampleState.ih : ℚ)⌋ = 600 := by
      norm_num [exampleState]
    omega
  exact ⟨⟨h1, h2, h3⟩, canvas_zoom_anchor_preserving exampleState 10 h1 h2 h3⟩

end Swayimg
